import Mathlib

/-!
Verification development for the Hono router and middleware-dispatch engine.

The per-request context is embedded from `deno_dist/context.ts`
(class `HonoContext`).  The router and dispatcher core is not part of the
repository sources (only its test suite `src/hono.test.ts` is), so those
parts are modelled from the specification, with behaviour pinned by the
test suite where the tests decide it.
-/

namespace HonoSpec

/-- Split a character list at every occurrence of the separator
(kernel-computable counterpart of `String.splitOn` for one-char
separators, which is the only use the sources make of it). -/
def charSplit (sep : Char) : List Char → List Char → List (List Char)
  | [], acc => [acc.reverse]
  | c :: cs, acc =>
    if c = sep then acc.reverse :: charSplit sep cs []
    else charSplit sep cs (c :: acc)

/-- ASCII lowercasing of a string (kernel-computable counterpart of
`String.toLower`, which is what JS `toLowerCase` does on header names). -/
def lowerStr (s : String) : String :=
  String.mk (s.data.map Char.toLower)

/-- Whether `s` begins with `p` (kernel-computable counterpart of
`String.startsWith`). -/
def strBeginsWith (s p : String) : Bool :=
  List.isPrefixOf p.data s.data

/-- The left brace character. -/
def lbrace : Char := Char.ofNat 123

/-- The right brace character. -/
def rbrace : Char := Char.ofNat 125

/-- JS record (plain object) assignment `m[k] = v`: update the first binding
of the exact key in place, else append a new binding at the end. -/
def recordSet : List (String × String) → String → String → List (String × String)
  | [], k, v => [(k, v)]
  | (k', v') :: rest, k, v =>
    if k' = k then (k', v) :: rest else (k', v') :: recordSet rest k v

/-- JS record property access `m[k]` (keys of a real JS object are unique,
so first match is the binding). -/
def recordGet : List (String × String) → String → Option String
  | [], _ => none
  | (k', v') :: rest, k => if k' = k then some v' else recordGet rest k

/-- JS object spread `{...a, ...b}`: assign every binding of `b` into `a`. -/
def recordMerge (a b : List (String × String)) : List (String × String) :=
  b.foldl (fun m p => recordSet m p.1 p.2) a

/-- All keys of a record are pairwise distinct. -/
def keysNodup : List (String × String) → Bool
  | [] => true
  | p :: rest => !(rest.any (fun q => q.1 == p.1)) && keysNodup rest

/-- An HTTP response value: status code, header record and body
(`none` is the JS `null` body). -/
structure Response where
  status : Nat
  headers : List (String × String)
  body : Option String
deriving DecidableEq, Repr

/-- `new Response()`: 200 with empty body and headers. -/
def Response.default : Response :=
  { status := 200, headers := [], body := none }

/-- The empty 404 response used as the default not-found outcome. -/
def Response.notFound404 : Response :=
  { status := 404, headers := [], body := none }

/-- Case-insensitive, last-writer-wins header lookup: the observable value of
a header name on a JS `Headers` object built from a header record. -/
def lastGetLower (m : List (String × String)) (k : String) : Option String :=
  m.foldl (fun acc p => if lowerStr p.1 = k then some p.2 else acc) none

/-- Observable value of header `name` on a response. -/
def Response.headerValue (r : Response) (name : String) : Option String :=
  lastGetLower r.headers (lowerStr name)

/-- `Headers.set(name, value)` on a response header record: drop every
binding of the (case-normalised) name and append the new one. -/
def respHeadersSet (hs : List (String × String)) (name value : String) :
    List (String × String) :=
  hs.filter (fun p => !(lowerStr p.1 == lowerStr name)) ++ [(lowerStr name, value)]

/-- Embedding of class `HonoContext` (deno_dist/context.ts): the data fields
of one per-request context.  Handler-opaque fields (`req`, `env`,
`_executionCtx`) are omitted; `_map` values are modelled as strings. -/
structure HonoContext where
  _status : Nat
  _pretty : Bool
  _prettySpace : Nat
  _map : Option (List (String × String))
  _headers : Option (List (String × String))
  _res : Option Response
  finalized : Bool
deriving DecidableEq, Repr

/-- The `HonoContext` constructor: `_status = 200`, `_pretty = false`,
`_prettySpace = 2`, no map, no headers, no response, `finalized = false`. -/
def HonoContext.make : HonoContext :=
  { _status := 200, _pretty := false, _prettySpace := 2,
    _map := none, _headers := none, _res := none, finalized := false }

/-- The `res` getter: `return (this._res ||= new Response())` — lazily
materialises and stores a default response; returns it with the updated
context. -/
def HonoContext.resGet (c : HonoContext) : Response × HonoContext :=
  let r := c._res.getD Response.default
  (r, { c with _res := some r })

/-- The `res` setter: stores the response and sets `finalized = true`. -/
def HonoContext.resSet (c : HonoContext) (r : Response) : HonoContext :=
  { c with _res := some r, finalized := true }

/-- `header(name, value)`: store under the lowercased name in `_headers`;
when already finalized, additionally `this.res.headers.set(name, value)`
(the getter materialises `_res` if absent). -/
def HonoContext.header (c : HonoContext) (name value : String) : HonoContext :=
  let hs := recordSet (c._headers.getD []) (lowerStr name) value
  let c1 : HonoContext := { c with _headers := some hs }
  if c1.finalized then
    let r := c1._res.getD Response.default
    { c1 with _res := some { r with headers := respHeadersSet r.headers name value } }
  else c1

/-- `status(status)`: store the pending status code. -/
def HonoContext.status (c : HonoContext) (s : Nat) : HonoContext :=
  { c with _status := s }

/-- `set(key, value)`: store in the per-request variable map. -/
def HonoContext.set (c : HonoContext) (key value : String) : HonoContext :=
  { c with _map := some (recordSet (c._map.getD []) key value) }

/-- `pretty(prettyJSON, space)`: store the pretty-printing options. -/
def HonoContext.pretty (c : HonoContext) (b : Bool) (space : Nat) : HonoContext :=
  { c with _pretty := b, _prettySpace := space }

/-- `serialize(name, value)` from utils/cookie with no options. -/
def serializeCookie (name value : String) : String :=
  name ++ "=" ++ value

/-- `cookie(name, value)`: serialize and set the `set-cookie` header. -/
def HonoContext.cookie (c : HonoContext) (name value : String) : HonoContext :=
  c.header "set-cookie" (serializeCookie name value)

/-- `status || this._status || 200` on JS numbers (0 is falsy). -/
def statusOr (s : Nat) (c : HonoContext) : Nat :=
  if s ≠ 0 then s else if c._status ≠ 0 then c._status else 200

/-- `newResponse(data, status, headers)`: copy the accumulated `_headers`,
overlay the stored response headers (JS `Headers` iteration yields
case-normalised names), then spread the explicit `headers` argument last. -/
def HonoContext.newResponse (c : HonoContext) (data : Option String) (status : Nat)
    (headers : List (String × String)) : Response :=
  let h0 := c._headers.getD []
  let h1 := match c._res with
    | some r => r.headers.foldl (fun m p => recordSet m (lowerStr p.1) p.2) h0
    | none => h0
  { status := statusOr status c, headers := recordMerge h1 headers, body := data }

/-- `text(text, status, headers)` with an explicit status. -/
def HonoContext.textS (c : HonoContext) (s : String) (status : Nat) : Response :=
  c.newResponse (some s) status [("content-type", "text/plain; charset=UTF-8")]

/-- `text(text)` with the default status (the pending `_status`). -/
def HonoContext.text (c : HonoContext) (s : String) : Response :=
  c.textS s c._status

/-- `html(html)` with the default status. -/
def HonoContext.html (c : HonoContext) (s : String) : Response :=
  c.newResponse (some s) c._status [("content-type", "text/html; charset=UTF-8")]

/-- Execution-trace event of a pipeline run: the pre-phase of the middleware
stage with a given id, the terminal handler stage, or the post-phase of a
middleware stage. -/
inductive Event where
  | preEv (i : Nat)
  | handlerEv
  | postEv (i : Nat)
deriving DecidableEq, Repr

/-- Pipeline-execution state: the per-request context plus the
instrumentation trace of phase events. -/
structure PCtx where
  core : HonoContext
  trace : List Event
deriving Repr

/-- Modelled from the spec: one middleware stage of the pipeline (the
dispatcher core is not in the sources).  A stage runs `pre` before the
continuation, invokes the continuation iff `callsNext`, runs `post` after
it, and finally returns `ret` as its value; `preErr`/`postErr` model a
failure thrown in the respective phase (the thrown message). -/
structure Middleware where
  id : Nat
  pre : HonoContext → HonoContext
  preErr : HonoContext → Option String
  callsNext : Bool
  post : HonoContext → HonoContext
  postErr : HonoContext → Option String
  ret : HonoContext → Option Response

/-- Modelled from the spec: the terminal handler stage; it is given no
continuation, may throw (`runErr`) and returns an optional response. -/
structure Handler where
  run : HonoContext → HonoContext × Option Response
  runErr : HonoContext → Option String

/-- Committing a stage's returned value: a returned response is assigned to
the context only when the context is not yet finalized (behaviour pinned by
the test `Both two middleware returning response`). -/
def commitRes (c : HonoContext) (r : Option Response) : HonoContext :=
  match r with
  | some resp => if c.finalized then c else c.resSet resp
  | none => c

/-- Modelled from the spec: execution of the flattened pipeline with
continuation semantics.  Each middleware stage runs its pre-phase, invokes
the continuation iff it chooses to, runs its post-phase as the stack
unwinds, and commits its returned value; a thrown failure propagates to the
dispatch boundary as an `Except.error` carrying the message and the state. -/
def execChain (h : Handler) : List Middleware → PCtx → Except (String × PCtx) PCtx
  | [], c =>
    let c1 : PCtx := ⟨c.core, c.trace ++ [Event.handlerEv]⟩
    match h.runErr c1.core with
    | some msg => Except.error (msg, c1)
    | none =>
      let pr := h.run c1.core
      Except.ok ⟨commitRes pr.1 pr.2, c1.trace⟩
  | m :: rest, c =>
    let c1 : PCtx := ⟨m.pre c.core, c.trace ++ [Event.preEv m.id]⟩
    match m.preErr c1.core with
    | some msg => Except.error (msg, c1)
    | none =>
      match (if m.callsNext then execChain h rest c1 else Except.ok c1) with
      | Except.error e => Except.error e
      | Except.ok c2 =>
        let c3 : PCtx := ⟨m.post c2.core, c2.trace ++ [Event.postEv m.id]⟩
        match m.postErr c3.core with
        | some msg => Except.error (msg, c3)
        | none => Except.ok ⟨commitRes c3.core (m.ret c3.core), c3.trace⟩

/-- The diagnostic message of the finalization-invariant failure. -/
def notFinalizedMsg : String :=
  "Context is not finalized. Did you forget to return a Response object or `await next()`?"

/-- Modelled from the spec: conversion of a dispatch-time failure into a
finalized response at the dispatch boundary — the registered error handler
receives the failure and the context; without one, a default response with
status 500 is produced. -/
def errorResponse (onError : Option (String → HonoContext → Response))
    (msg : String) (c : HonoContext) : Response :=
  match onError with
  | some f => f msg c
  | none => { status := 500, headers := [], body := some "Internal Server Error" }

/-- The error handler registered by the finalization tests: echoes the
failure message as a plain-text 500 response. -/
def onErrorEcho : String → HonoContext → Response :=
  fun msg c => c.textS msg 500

/-- Modelled from the spec: `dispatch` over an assembled pipeline.  Runs the
chain; a propagated failure is converted via the error path; a completed
run must satisfy the finalization invariant, else the
`ContextNotFinalizedError` is converted via the same error path. -/
def dispatchPipeline (onError : Option (String → HonoContext → Response))
    (mws : List Middleware) (h : Handler) (c : HonoContext) : Response :=
  match execChain h mws ⟨c, []⟩ with
  | Except.error (msg, ec) => errorResponse onError msg ec.core
  | Except.ok c2 =>
    if c2.core.finalized then c2.core._res.getD Response.default
    else errorResponse onError notFinalizedMsg c2.core

/-- Modelled from the spec: one compiled pattern segment — a static text
segment, a named parameter, a regex-constrained named parameter, or the
trailing wildcard. -/
inductive Seg where
  | static (s : String)
  | param (name : String)
  | paramRe (name : String) (re : String)
  | wildcard
deriving DecidableEq, Repr

/-- Split a pattern or path into slash-delimited segments. -/
def splitPath (p : String) : List String :=
  (charSplit '/' p.data []).map fun l => String.mk l

/-- Modelled from the spec: compile one pattern segment — `*` is the
wildcard, `:name` a parameter, `:name\x7bre\x7d` a constrained parameter
(unterminated constraint brace is a `PatternError`), anything else static. -/
def parseSeg (s : String) : Except String Seg :=
  if s == "*" then Except.ok Seg.wildcard
  else
    match s.data with
    | ':' :: rest =>
      match charSplit lbrace rest [] with
      | [n] => Except.ok (Seg.param (String.mk n))
      | [n, c] =>
        if c.getLast? = some rbrace then
          Except.ok (Seg.paramRe (String.mk n) (String.mk c.dropLast))
        else Except.error "PatternError"
      | _ => Except.error "PatternError"
    | _ => Except.ok (Seg.static s)

/-- Modelled from the spec: compile a pattern string into its segments. -/
def compileP (pattern : String) : Except String (List Seg) :=
  (splitPath pattern).mapM parseSeg

/-- Modelled from the spec: the constraint regexes of the repository are
alternations of literals; the whole segment must satisfy the anchored
constraint (the general regex engine is an external collaborator). -/
def regexAccepts (re s : String) : Bool :=
  (charSplit '|' re.data []).contains s.data

/-- Modelled from the spec: match of one pattern segment against one
non-wildcard path segment — static text exactly, a parameter any non-empty
segment, a constrained parameter a segment accepted by its constraint. -/
def segMatch : Seg → String → Bool
  | Seg.static s, p => s == p
  | Seg.param _, p => !(p == "")
  | Seg.paramRe _ re, p => regexAccepts re p
  | Seg.wildcard, _ => true

/-- Modelled from the spec: pairwise segment walk; a trailing wildcard
consumes all remaining path segments; otherwise segment counts must agree. -/
def matchSegs : List Seg → List String → Bool
  | [], [] => true
  | Seg.wildcard :: _, _ => true
  | s :: ss, p :: ps => segMatch s p && matchSegs ss ps
  | _, _ => false

/-- Drop a single trailing empty path segment (non-strict mode). -/
def stripPS (ps : List String) : List String :=
  match ps.getLast? with
  | some "" => ps.dropLast
  | _ => ps

/-- Drop a single trailing empty static segment of a pattern
(non-strict mode). -/
def stripSegs (segs : List Seg) : List Seg :=
  match segs.getLast? with
  | some (Seg.static "") => segs.dropLast
  | _ => segs

/-- Modelled from the spec: strict mode compares segments exactly;
non-strict mode ignores a single trailing empty segment on either side. -/
def matchPattern (strict : Bool) (segs : List Seg) (ps : List String) : Bool :=
  if strict then matchSegs segs ps
  else matchSegs (stripSegs segs) (stripPS ps)

/-- Captured parameter values of a matched pattern. -/
def captureParams : List Seg → List String → List (String × String)
  | Seg.param n :: ss, p :: ps => (n, p) :: captureParams ss ps
  | Seg.paramRe n _ :: ss, p :: ps => (n, p) :: captureParams ss ps
  | _ :: ss, _ :: ps => captureParams ss ps
  | _, _ => []

/-- Parameter capture honouring the strictness mode. -/
def captureFor (strict : Bool) (segs : List Seg) (ps : List String) :
    List (String × String) :=
  if strict then captureParams segs ps
  else captureParams (stripSegs segs) (stripPS ps)

/-- Number of static segments of a pattern. -/
def staticCount (segs : List Seg) : Nat :=
  segs.foldl (fun n s => match s with | Seg.static _ => n + 1 | _ => n) 0

/-- Number of regex-constrained parameter segments of a pattern. -/
def constrainedCount (segs : List Seg) : Nat :=
  segs.foldl (fun n s => match s with | Seg.paramRe _ _ => n + 1 | _ => n) 0

/-- Modelled from the spec: the specificity order — more static segments
first, then more constrained parameters, then fewer total segments. -/
def moreSpecific (p q : List Seg) : Bool :=
  Nat.blt (staticCount q) (staticCount p) ||
    (staticCount p == staticCount q &&
      (Nat.blt (constrainedCount q) (constrainedCount p) ||
        (constrainedCount p == constrainedCount q && Nat.blt p.length q.length)))

/-- Handler value at the registration API: it receives the captured
parameters and the context. -/
structure AppHandler where
  run : List (String × String) → HonoContext → HonoContext × Option Response
  runErr : HonoContext → Option String

/-- Specialise a registered handler to the parameters captured for one
request, producing the pipeline's terminal stage. -/
def toHandler (ah : AppHandler) (ps : List (String × String)) : Handler :=
  ⟨ah.run ps, ah.runErr⟩

/-- One route-table entry: middleware entry or terminal-handler entry,
with its compiled pattern; list order is registration order. -/
inductive Entry where
  | mwE (segs : List Seg) (m : Middleware)
  | hE (segs : List Seg) (h : AppHandler)

/-- Compiled pattern of an entry. -/
def entrySegs : Entry → List Seg
  | Entry.mwE segs _ => segs
  | Entry.hE segs _ => segs

/-- Modelled from the spec: the router — strictness flag, entries in
registration order, configured not-found handler (default: empty 404) and
optional error handler. -/
structure App where
  strict : Bool
  entries : List Entry
  notFoundHandler : HonoContext → Response
  onErrorHandler : Option (String → HonoContext → Response)

/-- A fresh router with the given strictness and no registrations. -/
def mkApp (strict : Bool) : App :=
  { strict := strict, entries := [],
    notFoundHandler := fun _ => Response.notFound404, onErrorHandler := none }

/-- Parameter names of a pattern, with their segment positions. -/
def paramPos (segs : List Seg) : List (String × Nat) :=
  segs.enum.filterMap fun p =>
    match p.2 with
    | Seg.param n => some (n, p.1)
    | Seg.paramRe n _ => some (n, p.1)
    | _ => none

/-- Parameter names of a pattern. -/
def paramNames (segs : List Seg) : List String :=
  (paramPos segs).map Prod.fst

/-- Whether a list of names has a duplicate. -/
def hasDup : List String → Bool
  | [] => false
  | x :: xs => xs.contains x || hasDup xs

/-- Modelled from the spec: whether two patterns could both match a single
concrete path — equal segment counts with pairwise-compatible segments
(statics must agree; parameters are compatible with anything), or a
wildcard pattern (conservatively compatible). -/
def compatible (p q : List Seg) : Bool :=
  if p.length == q.length then
    (List.zip p q).all fun ab =>
      match ab.1, ab.2 with
      | Seg.static x, Seg.static y => x == y
      | _, _ => true
  else
    p.any (fun s => match s with | Seg.wildcard => true | _ => false) ||
      q.any (fun s => match s with | Seg.wildcard => true | _ => false)

/-- Modelled from the spec: whether a parameter name is bound at two
different segment positions by the two patterns. -/
def namesClash (p q : List Seg) : Bool :=
  (paramPos p).any fun a => (paramPos q).any fun b => a.1 == b.1 && a.2 != b.2

/-- Modelled from the spec: handler registration with duplicate-param-name
validation — a duplicate within the pattern, or a name bound at a different
position by an already-registered pattern that could match the same
concrete path, fails synchronously with `DuplicateParamNameError`. -/
def addRoute (app : App) (pattern : String) (ah : AppHandler) :
    Except String App :=
  match compileP pattern with
  | Except.error e => Except.error e
  | Except.ok segs =>
    if hasDup (paramNames segs) then Except.error "Duplicate param name"
    else if app.entries.any (fun e =>
        compatible segs (entrySegs e) && namesClash segs (entrySegs e)) then
      Except.error "Duplicate param name"
    else Except.ok { app with entries := app.entries ++ [Entry.hE segs ah] }

/-- Registration that keeps the app unchanged on failure (used to build the
concrete applications whose registrations succeed). -/
def regH (app : App) (pattern : String) (ah : AppHandler) : App :=
  match addRoute app pattern ah with
  | Except.ok a => a
  | Except.error _ => app

/-- Middleware registration (`use`). -/
def useMW (app : App) (pattern : String) (m : Middleware) : App :=
  match compileP pattern with
  | Except.ok segs => { app with entries := app.entries ++ [Entry.mwE segs m] }
  | Except.error _ => app

/-- Whether a registration attempt returned ok. -/
def regOk (r : Except String App) : Bool :=
  match r with
  | Except.ok _ => true
  | Except.error _ => false

/-- Whether a registration attempt failed with `DuplicateParamNameError`. -/
def regDupErr (r : Except String App) : Bool :=
  match r with
  | Except.error m => m == "Duplicate param name"
  | Except.ok _ => false

/-- All middleware entries whose patterns match the path, in registration
order (middleware accumulates). -/
def matchedMWs (app : App) (path : String) : List Middleware :=
  app.entries.filterMap fun e =>
    match e with
    | Entry.mwE segs m =>
      if matchPattern app.strict segs (splitPath path) then some m else none
    | Entry.hE _ _ => none

/-- All handler entries whose patterns match the path, in registration
order. -/
def matchedHandlers (app : App) (path : String) : List (List Seg × AppHandler) :=
  app.entries.filterMap fun e =>
    match e with
    | Entry.hE segs h =>
      if matchPattern app.strict segs (splitPath path) then some (segs, h) else none
    | Entry.mwE _ _ => none

/-- Modelled from the spec: the single winning terminal handler — maximal
specificity, first-registered among equals. -/
def selectWinner (l : List (List Seg × AppHandler)) :
    Option (List Seg × AppHandler) :=
  l.foldl (fun best cand =>
    match best with
    | none => some cand
    | some b => if moreSpecific cand.1 b.1 then some cand else some b) none

/-- Modelled from the spec: full request dispatch — match the path, keep all
matching middleware in registration order, select the winning handler (or
the configured not-found handler as the terminal stage), and run the
assembled pipeline on a fresh context. -/
def dispatchApp (app : App) (path : String) : Response :=
  let ps := splitPath path
  let term : Handler :=
    match selectWinner (matchedHandlers app path) with
    | some sh => toHandler sh.2 (captureFor app.strict sh.1 ps)
    | none =>
      { run := fun core => (core, some (app.notFoundHandler core)),
        runErr := fun _ => none }
  dispatchPipeline app.onErrorHandler (matchedMWs app path) term HonoContext.make

/-- A plain handler returning `c.text s`. -/
def textHandler (s : String) : AppHandler :=
  { run := fun _ c => (c, some (c.text s)), runErr := fun _ => none }

/-- The strict-mode application registering `GET /hello`. -/
def appStrictNoSlash : App :=
  regH (mkApp true) "/hello" (textHandler "/hello")

/-- The strict-mode application registering `GET /hello/`. -/
def appStrictSlash : App :=
  regH (mkApp true) "/hello/" (textHandler "/hello/")

/-- The non-strict application registering `GET /hello`. -/
def appNonStrict : App :=
  regH (mkApp false) "/hello" (textHandler "/hello")

/-- The `/posts/:id` handler of the multiple-handler test: sets header
`foo: bar` and returns `id is <id>`. -/
def hPosts : AppHandler :=
  { run := fun ps c =>
      let c1 := c.header "foo" "bar"
      (c1, some (c1.text ("id is " ++ (recordGet ps "id").getD ""))),
    runErr := fun _ => none }

/-- The `/:type/:id` handler of the multiple-handler test: sets status 404
and header `foo2: bar2` and returns `foo`. -/
def hGeneric : AppHandler :=
  { run := fun _ c =>
      let c1 := (c.status 404).header "foo2" "bar2"
      (c1, some (c1.text "foo")),
    runErr := fun _ => none }

/-- The multiple-handler application: `/posts/:id` then `/:type/:id`. -/
def appC4 : App :=
  regH (regH (mkApp true) "/posts/:id" hPosts) "/:type/:id" hGeneric

/-- A throwaway handler used for the registration-validation scenarios. -/
def dummyH : AppHandler :=
  { run := fun _ c => (c, some (c.text "x")), runErr := fun _ => none }

/-- The middleware of the last-write test: awaits the continuation, then
returns `c.html("Foo")` from its post-phase. -/
def mwHtmlFoo : Middleware :=
  { id := 0, pre := fun c => c, preErr := fun _ => none, callsNext := true,
    post := fun c => c, postErr := fun _ => none,
    ret := fun c => some (c.html "Foo") }

/-- The handler of the last-write test: returns `c.text("Bar")`. -/
def handlerBar : Handler :=
  { run := fun c => (c, some (c.text "Bar")), runErr := fun _ => none }

/-- An outer middleware that overwrites the response via the `res` setter in
its post-phase. -/
def overwriteMW (r : Response) : Middleware :=
  { id := 0, pre := fun c => c, preErr := fun _ => none, callsNext := true,
    post := fun c => c.resSet r, postErr := fun _ => none, ret := fun _ => none }

/-- A pass-through middleware stage with a given id. -/
def mwPass (i : Nat) : Middleware :=
  { id := i, pre := fun c => c, preErr := fun _ => none, callsNext := true,
    post := fun c => c, postErr := fun _ => none, ret := fun _ => none }

/-- The middleware of the finalization test: returns without invoking the
continuation and without producing a response. -/
def mwNoNext : Middleware :=
  { id := 0, pre := fun c => c, preErr := fun _ => none, callsNext := false,
    post := fun c => c, postErr := fun _ => none, ret := fun _ => none }

/-- A middleware whose pre-phase throws. -/
def mwThrow : Middleware :=
  { id := 0, pre := fun c => c, preErr := fun _ => some "This is Middleware Error",
    callsNext := true, post := fun c => c, postErr := fun _ => none,
    ret := fun _ => none }

/-- A plain terminal handler returning `c.text("hello")`. -/
def handlerOk : Handler :=
  { run := fun c => (c, some (c.text "hello")), runErr := fun _ => none }

/-- The not-found test application: `GET /hello` plus a custom not-found
handler returning a 404 with body `Custom 404 Not Found`. -/
def appNF : App :=
  { regH (mkApp true) "/hello" (textHandler "hello") with
      notFoundHandler := fun c => c.textS "Custom 404 Not Found" 404 }

/-- Whether a compiled pattern matches a path string. -/
def patMatches (strict : Bool) (pattern path : String) : Bool :=
  match compileP pattern with
  | Except.ok segs => matchPattern strict segs (splitPath path)
  | Except.error _ => false

theorem recordGet_recordSet (m : List (String × String)) (a b v : String) :
    recordGet (recordSet m a v) b = if b = a then some v else recordGet m b := by
  induction m with
  | nil => simp [recordSet, recordGet, eq_comm]
  | cons p rest ih =>
    obtain ⟨k', v'⟩ := p
    by_cases h1 : k' = a
    · subst h1
      by_cases h2 : b = k'
      · simp [recordSet, recordGet, h2]
      · simp [recordSet, recordGet, h2, Ne.symm h2]
    · by_cases h2 : b = a
      · subst h2
        simp [recordSet, recordGet, h1, Ne.symm h1, ih]
      · by_cases h3 : k' = b <;> simp [recordSet, recordGet, h1, h2, h3, ih]

theorem recordGet_none_of_fresh (m : List (String × String)) (x : String)
    (h : m.any (fun q => q.1 == x) = false) : recordGet m x = none := by
  induction m with
  | nil => rfl
  | cons p rest ih =>
    simp only [List.any_cons, Bool.or_eq_false_iff] at h
    have h1 : ¬ p.1 = x := by simpa using h.1
    obtain ⟨k', v'⟩ := p
    simp only [recordGet, if_neg h1]
    exact ih h.2

theorem recordGet_recordMerge (b : List (String × String)) (hnd : keysNodup b = true) :
    ∀ (a : List (String × String)) (k : String),
      recordGet (recordMerge a b) k =
        match recordGet b k with
        | some v => some v
        | none => recordGet a k := by
  induction b with
  | nil => intro a k; rfl
  | cons p rest ih =>
    intro a k
    simp only [keysNodup, Bool.and_eq_true, Bool.not_eq_true'] at hnd
    have hmerge : recordMerge a (p :: rest) = recordMerge (recordSet a p.1 p.2) rest := rfl
    rw [hmerge, ih hnd.2]
    by_cases hk : p.1 = k
    · subst hk
      have : recordGet rest p.1 = none := recordGet_none_of_fresh rest p.1 hnd.1
      obtain ⟨k', v'⟩ := p
      simp [this, recordGet, recordGet_recordSet]
    · obtain ⟨k', v'⟩ := p
      simp only at hk
      simp [recordGet, recordGet_recordSet, hk, Ne.symm hk]

/-- Claim C9: the `finalized` flag of a `HonoContext` is `false` at
construction and is set to `true` exactly by the `res` setter; `header`,
`status`, `set`, `pretty`, `cookie` and the `res` getter leave it
unchanged, and reading the `res` getter before any assignment lazily
creates and stores a default `Response` without marking the context
finalized. -/
theorem finalized_flag_invariant (c c2 : HonoContext) (r : Response)
    (n v k w : String) (b : Bool) (sp st : Nat) (hres : c2._res = none) :
    HonoContext.make.finalized = false
    ∧ (c.resSet r).finalized = true
    ∧ (c.header n v).finalized = c.finalized
    ∧ (c.status st).finalized = c.finalized
    ∧ (c.set k w).finalized = c.finalized
    ∧ (c.pretty b sp).finalized = c.finalized
    ∧ (c.cookie n v).finalized = c.finalized
    ∧ (c.resGet).2.finalized = c.finalized
    ∧ (c2.resGet).2._res = some Response.default
    ∧ (c2.resGet).2.finalized = c2.finalized := by
  refine ⟨rfl, rfl, ?_, rfl, rfl, rfl, ?_, rfl, ?_, rfl⟩
  · by_cases h : c.finalized <;> simp [HonoContext.header, h]
  · by_cases h : c.finalized <;> simp [HonoContext.cookie, HonoContext.header, h]
  · simp [HonoContext.resGet, hres]

theorem finalized_flag_invariant_witness :
    HonoContext.make.finalized = false
    ∧ (HonoContext.make.resSet Response.default).finalized = true
    ∧ (HonoContext.make.header "X-Custom" "v").finalized = HonoContext.make.finalized
    ∧ (HonoContext.make.status 201).finalized = HonoContext.make.finalized
    ∧ (HonoContext.make.set "k" "w").finalized = HonoContext.make.finalized
    ∧ (HonoContext.make.pretty true 2).finalized = HonoContext.make.finalized
    ∧ (HonoContext.make.cookie "a" "b").finalized = HonoContext.make.finalized
    ∧ (HonoContext.make.resGet).2.finalized = HonoContext.make.finalized
    ∧ (HonoContext.make.resGet).2._res = some Response.default
    ∧ (HonoContext.make.resGet).2.finalized = HonoContext.make.finalized :=
  finalized_flag_invariant HonoContext.make HonoContext.make Response.default
    "X-Custom" "v" "k" "w" true 2 201 rfl

/-- Claim C10: `header(name, value)` stores the value under the lowercased
name in the accumulated header record; iff the context is already finalized
it additionally sets the header on the stored response, otherwise the
stored response is unchanged; the accumulated record is applied by
`newResponse`, where explicit-argument headers take precedence over
accumulated headers with the same name. -/
theorem header_lowercase_and_precedence (c cf cnf c2 : HonoContext) (n v : String)
    (hf : cf.finalized = true) (hnf : cnf.finalized = false)
    (data : Option String) (st : Nat)
    (hdrs : List (String × String)) (k w : String)
    (hnd : keysNodup hdrs = true) (hk : recordGet hdrs k = some w)
    (hdrs2 : List (String × String)) (k2 : String)
    (hnd2 : keysNodup hdrs2 = true) (hk2 : recordGet hdrs2 k2 = none)
    (hres2 : c2._res = none) :
    (c.header n v)._headers = some (recordSet (c._headers.getD []) (lowerStr n) v)
    ∧ (cnf.header n v)._res = cnf._res
    ∧ (cf.header n v)._res =
        some { cf._res.getD Response.default with
                 headers := respHeadersSet (cf._res.getD Response.default).headers n v }
    ∧ recordGet (c.newResponse data st hdrs).headers k = some w
    ∧ recordGet (c2.newResponse data st hdrs2).headers k2 =
        recordGet (c2._headers.getD []) k2 := by
  refine ⟨?_, ?_, ?_, ?_, ?_⟩
  · by_cases h : c.finalized <;> simp [HonoContext.header, h]
  · simp [HonoContext.header, hnf]
  · simp [HonoContext.header, hf]
  · have := recordGet_recordMerge hdrs hnd
    cases hcr : c._res <;> simp [HonoContext.newResponse, hcr, this, hk]
  · have := recordGet_recordMerge hdrs2 hnd2
    simp [HonoContext.newResponse, hres2, this, hk2]

theorem header_lowercase_and_precedence_witness :
    (HonoContext.make.header "X-Custom" "This is Hono")._headers =
      some (recordSet (HonoContext.make._headers.getD []) (lowerStr "X-Custom") "This is Hono")
    ∧ (HonoContext.make.header "X-Custom" "This is Hono")._res = HonoContext.make._res
    ∧ ((HonoContext.make.resSet Response.default).header "X-Custom" "This is Hono")._res =
        some { (HonoContext.make.resSet Response.default)._res.getD Response.default with
                 headers := respHeadersSet
                   ((HonoContext.make.resSet Response.default)._res.getD Response.default).headers
                   "X-Custom" "This is Hono" }
    ∧ recordGet (HonoContext.make.newResponse (some "b") 201
        [("content-type", "text/html")]).headers "content-type" = some "text/html"
    ∧ recordGet (HonoContext.make.newResponse (some "b") 201 [("a", "1")]).headers "zzz" =
        recordGet (HonoContext.make._headers.getD []) "zzz" :=
  header_lowercase_and_precedence HonoContext.make
    (HonoContext.make.resSet Response.default) HonoContext.make HonoContext.make
    "X-Custom" "This is Hono" rfl rfl (some "b") 201
    [("content-type", "text/html")] "content-type" "text/html" rfl rfl
    [("a", "1")] "zzz" rfl rfl rfl

theorem execChain_trace_lifo (h : Handler) (hh : ∀ core, h.runErr core = none)
    (mws : List Middleware)
    (hnext : ∀ m ∈ mws, m.callsNext = true)
    (hpre : ∀ m ∈ mws, ∀ core, m.preErr core = none)
    (hpost : ∀ m ∈ mws, ∀ core, m.postErr core = none) :
    ∀ (core : HonoContext) (t : List Event), ∃ core2,
      execChain h mws ⟨core, t⟩ =
        Except.ok ⟨core2, t ++ (mws.map fun m => Event.preEv m.id) ++
          Event.handlerEv :: (mws.reverse.map fun m => Event.postEv m.id)⟩ := by
  induction mws with
  | nil =>
    intro core t
    refine ⟨commitRes (h.run core).1 (h.run core).2, ?_⟩
    simp [execChain, hh]
  | cons m rest ih =>
    intro core t
    have hm : m ∈ m :: rest := List.mem_cons_self m rest
    have ihrest := ih (fun m' hm' => hnext m' (List.mem_cons_of_mem m hm'))
      (fun m' hm' => hpre m' (List.mem_cons_of_mem m hm'))
      (fun m' hm' => hpost m' (List.mem_cons_of_mem m hm'))
    obtain ⟨core2, heq⟩ := ihrest (m.pre core) (t ++ [Event.preEv m.id])
    refine ⟨commitRes (m.post core2) (m.ret (m.post core2)), ?_⟩
    simp only [execChain, hpre m hm, hnext m hm, if_true, heq, hpost m hm]
    simp [List.append_assoc]

/-- Claim C2: for every pipeline of middleware stages that each invoke the
continuation (and throw nothing) around a terminal handler, the pre-phases
run outermost-to-innermost before the terminal handler and the post-phases
run innermost-to-outermost after it, in strict LIFO nesting, as recorded by
the execution trace. -/
theorem middleware_lifo_ordering (mws : List Middleware) (h : Handler)
    (c : HonoContext)
    (hh : ∀ core, h.runErr core = none)
    (hnext : ∀ m ∈ mws, m.callsNext = true)
    (hpre : ∀ m ∈ mws, ∀ core, m.preErr core = none)
    (hpost : ∀ m ∈ mws, ∀ core, m.postErr core = none) :
    ∃ core2, execChain h mws ⟨c, []⟩ =
      Except.ok ⟨core2, (mws.map fun m => Event.preEv m.id) ++
        Event.handlerEv :: (mws.reverse.map fun m => Event.postEv m.id)⟩ := by
  obtain ⟨core2, heq⟩ := execChain_trace_lifo h hh mws hnext hpre hpost c []
  exact ⟨core2, by simpa using heq⟩

theorem middleware_lifo_ordering_witness :
    ∃ core2, execChain handlerOk [mwPass 1, mwPass 2] ⟨HonoContext.make, []⟩ =
      Except.ok ⟨core2, ([mwPass 1, mwPass 2].map fun m => Event.preEv m.id) ++
        Event.handlerEv :: ([mwPass 1, mwPass 2].reverse.map fun m => Event.postEv m.id)⟩ :=
  middleware_lifo_ordering [mwPass 1, mwPass 2] handlerOk HonoContext.make
    (fun _ => rfl)
    (by intro m hm; fin_cases hm <;> rfl)
    (by intro m hm; fin_cases hm <;> intro core <;> rfl)
    (by intro m hm; fin_cases hm <;> intro core <;> rfl)

/-- Claim C3: a pipeline that completes without any stage producing or
assigning a response violates the finalization invariant: dispatch yields a
500 response via the error path, whose diagnostic (echoed by the registered
error handler, as in the test) begins with "Context is not finalized". -/
theorem unfinalized_pipeline_yields_500 (mws : List Middleware) (h : Handler)
    (c : HonoContext) (c2 : PCtx)
    (hexec : execChain h mws ⟨c, []⟩ = Except.ok c2)
    (hfin : c2.core.finalized = false)
    (onErr : Option (String → HonoContext → Response)) :
    dispatchPipeline onErr mws h c = errorResponse onErr notFinalizedMsg c2.core
    ∧ (dispatchPipeline (some onErrorEcho) mws h c).status = 500
    ∧ strBeginsWith ((dispatchPipeline (some onErrorEcho) mws h c).body.getD "")
        "Context is not finalized" = true := by
  refine ⟨?_, ?_, ?_⟩
  · simp [dispatchPipeline, hexec, hfin]
  · simp [dispatchPipeline, hexec, hfin, errorResponse, onErrorEcho,
      HonoContext.textS, HonoContext.newResponse, statusOr]
  · simp only [dispatchPipeline, hexec, hfin, if_false, Bool.false_eq_true, errorResponse,
      onErrorEcho, HonoContext.textS, HonoContext.newResponse, Option.getD_some]
    rfl

theorem unfinalized_pipeline_yields_500_witness :
    dispatchPipeline none [mwNoNext] handlerOk HonoContext.make =
      errorResponse none notFinalizedMsg
        (PCtx.mk HonoContext.make [Event.preEv 0, Event.postEv 0]).core
    ∧ (dispatchPipeline (some onErrorEcho) [mwNoNext] handlerOk HonoContext.make).status = 500
    ∧ strBeginsWith ((dispatchPipeline (some onErrorEcho) [mwNoNext] handlerOk
        HonoContext.make).body.getD "") "Context is not finalized" = true :=
  unfinalized_pipeline_yields_500 [mwNoNext] handlerOk HonoContext.make
    (PCtx.mk HonoContext.make [Event.preEv 0, Event.postEv 0]) rfl rfl none

/-- Claim C7: a failure thrown by a middleware or the terminal handler does
not escape dispatch: it is converted at the dispatch boundary into the
response of the registered error handler (which receives the failure
message and the context), or into a default response with status 500 when
no error handler is registered. -/
theorem thrown_failure_caught_at_boundary
    (onErr : Option (String → HonoContext → Response))
    (mws : List Middleware) (h : Handler) (c : HonoContext)
    (msg : String) (ec : PCtx)
    (hexec : execChain h mws ⟨c, []⟩ = Except.error (msg, ec)) :
    dispatchPipeline onErr mws h c = errorResponse onErr msg ec.core
    ∧ (∀ f, errorResponse (some f) msg ec.core = f msg ec.core)
    ∧ (dispatchPipeline none mws h c).status = 500 := by
  refine ⟨?_, fun f => rfl, ?_⟩
  · simp [dispatchPipeline, hexec]
  · simp [dispatchPipeline, hexec, errorResponse]

theorem thrown_failure_caught_at_boundary_witness :
    dispatchPipeline none [mwThrow] handlerOk HonoContext.make =
      errorResponse none "This is Middleware Error"
        (PCtx.mk HonoContext.make [Event.preEv 0]).core
    ∧ (∀ f, errorResponse (some f) "This is Middleware Error"
        (PCtx.mk HonoContext.make [Event.preEv 0]).core =
          f "This is Middleware Error" (PCtx.mk HonoContext.make [Event.preEv 0]).core)
    ∧ (dispatchPipeline none [mwThrow] handlerOk HonoContext.make).status = 500 :=
  thrown_failure_caught_at_boundary none [mwThrow] handlerOk HonoContext.make
    "This is Middleware Error" (PCtx.mk HonoContext.make [Event.preEv 0]) rfl

/-- Claim C1, counterexample: in the pipeline of the test `Both two
middleware returning response` — an outer middleware that returns
`c.html("Foo")` from its post-phase after awaiting the continuation, around
a handler returning `c.text("Bar")` — the dispatched response is the
handler's (`Bar`, text/plain), not the outer middleware's (`Foo`), so a
post-phase returned response does not supersede the downstream response. -/
theorem returned_response_does_not_supersede :
    (dispatchPipeline none [mwHtmlFoo] handlerBar HonoContext.make).body = some "Bar"
    ∧ ¬ (dispatchPipeline none [mwHtmlFoo] handlerBar HonoContext.make).body = some "Foo"
    ∧ Response.headerValue (dispatchPipeline none [mwHtmlFoo] handlerBar HonoContext.make)
        "content-type" = some "text/plain; charset=UTF-8" := by
  refine ⟨rfl, by decide, rfl⟩

/-- Claim C1, amended: an outer middleware that overwrites the response by
assigning the context's `res` setter in its post-phase supersedes whatever
downstream produced — the dispatched response equals the assigned one; a
response merely returned from the post-phase is committed only when the
context is not yet finalized. -/
theorem res_setter_overwrite_wins (r : Response) (rest : List Middleware)
    (h : Handler) (c : HonoContext) (c2 : PCtx)
    (hexec : execChain h rest ⟨c, [Event.preEv 0]⟩ = Except.ok c2)
    (onErr : Option (String → HonoContext → Response)) :
    dispatchPipeline onErr (overwriteMW r :: rest) h c = r := by
  simp [dispatchPipeline, execChain, overwriteMW, hexec, commitRes, HonoContext.resSet]

theorem res_setter_overwrite_wins_witness :
    dispatchPipeline none [overwriteMW (Response.mk 201 [] (some "overwritten"))]
      handlerBar HonoContext.make = Response.mk 201 [] (some "overwritten") :=
  res_setter_overwrite_wins (Response.mk 201 [] (some "overwritten")) [] handlerBar
    HonoContext.make
    (PCtx.mk (HonoContext.make.resSet (HonoContext.make.text "Bar"))
      [Event.preEv 0, Event.handlerEv]) rfl none

/-- Claim C4: with both `/posts/:id` and `/:type/:id` registered, a request
for `/posts/123` matches both, is dispatched to the `/posts/:id` handler
(more static segments wins) — its body and `foo: bar` header appear on the
response while the losing sibling's `foo2` header does not. -/
theorem specificity_static_segments_win :
    (matchedHandlers appC4 "/posts/123").length = 2
    ∧ dispatchApp appC4 "/posts/123" =
        { status := 200,
          headers := [("foo", "bar"), ("content-type", "text/plain; charset=UTF-8")],
          body := some "id is 123" }
    ∧ Response.headerValue (dispatchApp appC4 "/posts/123") "foo" = some "bar"
    ∧ Response.headerValue (dispatchApp appC4 "/posts/123") "foo2" = none :=
  ⟨rfl, rfl, rfl, rfl⟩

/-- Claim C5: duplicate-parameter-name validation at registration time —
`/:id/:id` fails; `/posts/:id/comments/:comment_id` then `/posts/:id`
succeeds; `/:id/:action` then `/posts/:id` fails, and so does the reverse
order; `/:id/:action{create|update}` then `/:id/:action{delete}` succeeds.
The failure is the synchronous `Except.error` result handed to the caller
of the registration API. -/
theorem duplicate_param_name_validation :
    regDupErr (addRoute (mkApp true) "/:id/:id" dummyH) = true
    ∧ regOk (addRoute (mkApp true) "/posts/:id/comments/:comment_id" dummyH) = true
    ∧ regOk (addRoute (regH (mkApp true) "/posts/:id/comments/:comment_id" dummyH)
        "/posts/:id" dummyH) = true
    ∧ regDupErr (addRoute (regH (mkApp true) "/:id/:action" dummyH)
        "/posts/:id" dummyH) = true
    ∧ regDupErr (addRoute (regH (mkApp true) "/posts/:id" dummyH)
        "/:id/:action" dummyH) = true
    ∧ regOk (addRoute (regH (mkApp true) "/:id/:action\x7bcreate|update\x7d" dummyH)
        "/:id/:action\x7bdelete\x7d" dummyH) = true :=
  ⟨rfl, rfl, rfl, rfl, rfl, rfl⟩

/-- Claim C6: trailing-slash matching — in strict mode pattern `/hello`
matches only path `/hello` and pattern `/hello/` only `/hello/`; in
non-strict mode pattern `/hello` matches both, at the matcher level and at
the dispatch level. -/
theorem trailing_slash_strict_matching :
    patMatches true "/hello" "/hello" = true
    ∧ patMatches true "/hello" "/hello/" = false
    ∧ patMatches true "/hello/" "/hello/" = true
    ∧ patMatches true "/hello/" "/hello" = false
    ∧ patMatches false "/hello" "/hello" = true
    ∧ patMatches false "/hello" "/hello/" = true
    ∧ (dispatchApp appStrictNoSlash "/hello").status = 200
    ∧ (dispatchApp appStrictNoSlash "/hello/").status = 404
    ∧ (dispatchApp appStrictSlash "/hello/").status = 200
    ∧ (dispatchApp appStrictSlash "/hello").status = 404
    ∧ (dispatchApp appNonStrict "/hello").status = 200
    ∧ (dispatchApp appNonStrict "/hello/").status = 200 :=
  ⟨rfl, rfl, rfl, rfl, rfl, rfl, rfl, rfl, rfl, rfl, rfl, rfl⟩

/-- Claim C8: when no entry matches the path, the dispatcher's terminal
stage is the configured not-found handler: the dispatched response is that
handler's response — the default empty 404 on a fresh router, and the
custom handler's response once one replaces the default. -/
theorem not_found_handler_dispatch (app : App) (path : String)
    (nf : HonoContext → Response)
    (hm : matchedMWs app path = []) (hh : matchedHandlers app path = []) :
    dispatchApp app path = app.notFoundHandler HonoContext.make
    ∧ dispatchApp { app with notFoundHandler := nf } path = nf HonoContext.make
    ∧ dispatchApp (mkApp true) path = Response.notFound404 := by
  have key : ∀ (a : App), matchedMWs a path = [] → matchedHandlers a path = [] →
      dispatchApp a path = a.notFoundHandler HonoContext.make := by
    intro a hma hha
    simp [dispatchApp, hma, hha, selectWinner, dispatchPipeline, execChain, commitRes,
      HonoContext.resSet, HonoContext.make]
  have hm2 : matchedMWs { app with notFoundHandler := nf } path = [] := hm
  have hh2 : matchedHandlers { app with notFoundHandler := nf } path = [] := hh
  exact ⟨key app hm hh, key _ hm2 hh2, key (mkApp true) rfl rfl⟩

theorem not_found_handler_dispatch_witness :
    dispatchApp appNF "/foo" = appNF.notFoundHandler HonoContext.make
    ∧ dispatchApp { appNF with notFoundHandler := fun _ => Response.default } "/foo" =
        (fun _ => Response.default : HonoContext → Response) HonoContext.make
    ∧ dispatchApp (mkApp true) "/foo" = Response.notFound404 :=
  not_found_handler_dispatch appNF "/foo" (fun _ => Response.default) rfl rfl

end HonoSpec
